import Mathlib

/-!
# Verification development for the SegWit P2WSH data-envelope MVP

Shallow embedding of the codec and assembly logic of `src/src/App.tsx`
(`segwit-p2wsh-data-mvp`), together with the bitcoinjs-lib script
primitives the app calls (`bitcoin.script.compile` / `decompile` with
their BIP62.3 minimal-push policy, `bitcoin.payments.p2wsh`).

Bytes are modelled as `Nat` (values `0..255`), byte buffers as `List Nat`,
JavaScript strings as `List Char`.  Fallible JavaScript code (functions
that `throw`) is modelled with `Except String`.
-/

namespace P2wshMvp

/-! ## bitcoinjs-lib script primitives

A decompiled script is a list of chunks; each chunk is either a plain
opcode (a JavaScript `number`) or a data push (a JavaScript `Buffer`).
-/

/-- A script chunk as handled by bitcoinjs-lib: an opcode number or a
data-push byte buffer. -/
inductive Chunk where
  | op : Nat → Chunk
  | buf : List Nat → Chunk
deriving DecidableEq, Repr

/-- `OP_0` / `OP_FALSE` opcode. -/
def OP_FALSE : Nat := 0
/-- `OP_IF` opcode. -/
def OP_IF : Nat := 99
/-- `OP_ENDIF` opcode. -/
def OP_ENDIF : Nat := 104
/-- `OP_1` / `OP_TRUE` opcode. -/
def OP_TRUE : Nat := 81
/-- `OP_PUSHDATA1` opcode. -/
def OP_PUSHDATA1 : Nat := 76
/-- `OP_PUSHDATA2` opcode. -/
def OP_PUSHDATA2 : Nat := 77
/-- `OP_PUSHDATA4` opcode. -/
def OP_PUSHDATA4 : Nat := 78
/-- `OP_1NEGATE` opcode. -/
def OP_1NEGATE : Nat := 79
/-- `OP_RESERVED` opcode (base for the small-number opcodes). -/
def OP_RESERVED : Nat := 80

/-- bitcoinjs-lib `asMinimalOP`: a buffer that must be encoded as a
single opcode under the minimal-push policy.  The empty buffer becomes
`OP_0`, a single byte `1..16` becomes `OP_1..OP_16`, and the single byte
`0x81` becomes `OP_1NEGATE`. -/
def asMinimalOP (b : List Nat) : Option Nat :=
  match b with
  | [] => some OP_FALSE
  | [x] =>
    if 1 ≤ x ∧ x ≤ 16 then some (OP_RESERVED + x)
    else if x = 129 then some OP_1NEGATE
    else none
  | _ => none

/-- The pushdata header emitted for a data push of `n` bytes
(bitcoinjs-lib `pushdata.encode`): a single length byte below
`OP_PUSHDATA1`, then the `OP_PUSHDATA1` / `OP_PUSHDATA2` / `OP_PUSHDATA4`
forms with little-endian lengths. -/
def pushdataHeader (n : Nat) : List Nat :=
  if n < 76 then [n]
  else if n ≤ 255 then [OP_PUSHDATA1, n]
  else if n ≤ 65535 then [OP_PUSHDATA2, n % 256, n / 256]
  else [OP_PUSHDATA4, n % 256, n / 256 % 256, n / 65536 % 256, n / 16777216 % 256]

/-- Bytes emitted by bitcoinjs-lib `compile` for one data-push chunk:
the minimal opcode when `asMinimalOP` applies, otherwise a pushdata
header followed by the raw bytes. -/
def minimalPush (d : List Nat) : List Nat :=
  match asMinimalOP d with
  | some o => [o]
  | none => pushdataHeader d.length ++ d

/-- Bytes emitted by bitcoinjs-lib `compile` for one chunk. -/
def compileChunk : Chunk → List Nat
  | Chunk.op n => [n]
  | Chunk.buf d => minimalPush d

/-- bitcoinjs-lib `bitcoin.script.compile`: concatenates the encodings of
the chunks. -/
def compile (chunks : List Chunk) : List Nat :=
  chunks.flatMap compileChunk

/-- The chunk produced by `decompile` for push data `d`: coerced back to
a minimal opcode when possible (bitcoinjs-lib "decompile minimally"),
otherwise kept as a buffer. -/
def chunkOfData (d : List Nat) : Chunk :=
  match asMinimalOP d with
  | some o => Chunk.op o
  | none => Chunk.buf d

/-- bitcoinjs-lib `pushdata.decode`, relative form: given the opcode byte
`b` (already known to be in the push range `1..78`) and the remaining
bytes, return the announced data length and the number of extra header
bytes consumed, or `none` when the header is truncated. -/
def pushHeader (b : Nat) (rest : List Nat) : Option (Nat × Nat) :=
  if b < 76 then some (b, 0)
  else if b = 76 then
    match rest with
    | x :: _ => some (x, 1)
    | [] => none
  else if b = 77 then
    match rest with
    | x :: y :: _ => some (x + 256 * y, 2)
    | _ => none
  else
    match rest with
    | x :: y :: z :: w :: _ => some (x + 256 * y + 65536 * z + 16777216 * w, 4)
    | _ => none

/-- bitcoinjs-lib `bitcoin.script.decompile`: scans the script bytes,
reading plain opcodes and pushdata chunks; returns `none` on a truncated
pushdata header or when a push announces more data than remains. -/
def decompile : List Nat → Option (List Chunk)
  | [] => some []
  | b :: rest =>
    if 1 ≤ b ∧ b ≤ 78 then
      match pushHeader b rest with
      | none => none
      | some (num, hdrlen) =>
        if num ≤ (rest.drop hdrlen).length then
          match decompile ((rest.drop hdrlen).drop num) with
          | none => none
          | some chunks => some (chunkOfData ((rest.drop hdrlen).take num) :: chunks)
        else none
    else
      match decompile rest with
      | none => none
      | some chunks => some (Chunk.op b :: chunks)
termination_by s => s.length
decreasing_by
  · simp only [List.length_drop, List.length_cons]
    omega
  · simp

/-! ## App.tsx: envelope builders and parser -/

/-- `buildEnvelopeScript` (App.tsx): compiles
`OP_FALSE OP_IF <payload-push> OP_ENDIF OP_TRUE`. -/
def buildEnvelopeScript (dataBytes : List Nat) : List Nat :=
  compile [Chunk.op OP_FALSE, Chunk.op OP_IF, Chunk.buf dataBytes,
           Chunk.op OP_ENDIF, Chunk.op OP_TRUE]

/-- The UTF-8 bytes of the protocol tag `"ord"`. -/
def ordTag : List Nat := [111, 114, 100]

/-- The payload-chunking loop of `buildInscriptionScript` (App.tsx):
`for (let i = 0; i < dataBytes.length; i += 520) parts.push(slice(i, i+520))`. -/
def chunkData : List Nat → List (List Nat)
  | [] => []
  | b :: rest => (b :: rest).take 520 :: chunkData ((b :: rest).drop 520)
termination_by l => l.length
decreasing_by
  simp only [List.length_drop, List.length_cons]
  omega

/-- `buildInscriptionScript` (App.tsx): the Ordinals-style envelope
`OP_FALSE OP_IF <"ord"> <0x01> <content-type> <0x00> <chunk>* OP_ENDIF`,
compiled by bitcoinjs-lib.  The content type is passed as its UTF-8
bytes. -/
def buildInscriptionScript (dataBytes : List Nat) (contentType : List Nat) : List Nat :=
  compile ([Chunk.op OP_FALSE, Chunk.op OP_IF, Chunk.buf ordTag,
            Chunk.buf [1], Chunk.buf contentType, Chunk.buf [0]]
           ++ (chunkData dataBytes).map Chunk.buf ++ [Chunk.op OP_ENDIF])

/-- `parseEnvelopeScript` (App.tsx), applied to the script bytes: the
decompile step may fail (`none`); the chunk list must have at least 5
elements with `OP_FALSE`, `OP_IF` in front and `OP_ENDIF`, `OP_TRUE` at
the back; the element at index 2 is returned when it is a buffer
(`Buffer.isBuffer`), otherwise the result is `none`. -/
def parseEnvelopeScript (script : List Nat) : Option (List Nat) :=
  match decompile script with
  | none => none
  | some chunks =>
    if chunks.length < 5 then none
    else if chunks.get? 0 = some (Chunk.op OP_FALSE)
        ∧ chunks.get? 1 = some (Chunk.op OP_IF)
        ∧ chunks.get? (chunks.length - 2) = some (Chunk.op OP_ENDIF)
        ∧ chunks.get? (chunks.length - 1) = some (Chunk.op OP_TRUE) then
      match chunks.get? 2 with
      | some (Chunk.buf d) => some d
      | _ => none
    else none

/-! ## App.tsx: hex decoding

`hexToBytes` trims the string, strips a leading `0x`, rejects odd
lengths, and decodes each 2-character pair with JavaScript
`parseInt(pair, 16)`; the result is stored into a `Uint8Array`
(`ToUint8`: `NaN` becomes `0`, other values are taken mod 256).
-/

/-- ASCII whitespace as stripped by JavaScript `trim` / `parseInt`. -/
def isJsSpace (c : Char) : Bool :=
  c.toNat = 9 ∨ c.toNat = 10 ∨ c.toNat = 11 ∨ c.toNat = 12 ∨ c.toNat = 13 ∨ c.toNat = 32

/-- JavaScript `String.prototype.trim` (ASCII-whitespace fragment). -/
def jsTrim (s : List Char) : List Char :=
  ((s.dropWhile isJsSpace).reverse.dropWhile isJsSpace).reverse

/-- The regex replacement `replace(/^0x/, "")` of `hexToBytes`. -/
def strip0x (l : List Char) : List Char :=
  match l with
  | c0 :: c1 :: r => if c0 = '0' ∧ c1 = 'x' then r else l
  | _ => l

/-- Is `c` one of `0-9a-fA-F`? -/
def isHexDigitChar (c : Char) : Bool :=
  (48 ≤ c.toNat ∧ c.toNat ≤ 57) ∨ (97 ≤ c.toNat ∧ c.toNat ≤ 102)
    ∨ (65 ≤ c.toNat ∧ c.toNat ≤ 70)

/-- Numeric value of a hex digit (0 for non-digits; only applied to
digits in the statements below). -/
def hexDigitVal (c : Char) : Nat :=
  if 48 ≤ c.toNat ∧ c.toNat ≤ 57 then c.toNat - 48
  else if 97 ≤ c.toNat ∧ c.toNat ≤ 102 then c.toNat - 87
  else if 65 ≤ c.toNat ∧ c.toNat ≤ 70 then c.toNat - 55
  else 0

/-- The optional `0x` / `0X` marker stripped by `parseInt` when the radix
is 16. -/
def stripHexMarker (l : List Char) : List Char :=
  match l with
  | c0 :: c1 :: r => if c0 = '0' ∧ (c1 = 'x' ∨ c1 = 'X') then r else l
  | _ => l

/-- JavaScript `parseInt(s, 16)`: skip leading whitespace, read an
optional sign, strip an optional `0x`/`0X` marker, then interpret the
longest leading run of hex digits; `none` models `NaN` (no digits). -/
def jsParseIntHex (s : List Char) : Option Int :=
  match s.dropWhile isJsSpace with
  | [] => none
  | c :: rest =>
    let sign : Int := if c = '-' then -1 else 1
    let body := if c = '-' ∨ c = '+' then rest else c :: rest
    let digits := (stripHexMarker body).takeWhile isHexDigitChar
    if digits.isEmpty then none
    else some (sign * digits.foldl (fun a d => a * 16 + (hexDigitVal d : Int)) 0)

/-- JavaScript `Uint8Array` element store (`ToUint8`): `NaN` becomes 0,
other integers are reduced mod 256. -/
def jsToUint8 : Option Int → Nat
  | none => 0
  | some z => (z % 256).toNat

/-- The decode loop of `hexToBytes`: one byte per 2-character pair. -/
def hexPairsToBytes : List Char → List Nat
  | c1 :: c2 :: r => jsToUint8 (jsParseIntHex [c1, c2]) :: hexPairsToBytes r
  | _ => []

/-- `hexToBytes` (App.tsx). -/
def hexToBytes (s : List Char) : Except String (List Nat) :=
  if (strip0x (jsTrim s)).length % 2 ≠ 0 then Except.error "Hex length must be even"
  else Except.ok (hexPairsToBytes (strip0x (jsTrim s)))

/-- The byte sequence a hex string denotes (spec reading: each pair of
hex digits is one byte, high digit first). -/
def hexPairsVal : List Char → List Nat
  | c1 :: c2 :: r => (16 * hexDigitVal c1 + hexDigitVal c2) :: hexPairsVal r
  | _ => []

/-! ## App.tsx: compact-size encoder and witness serialization -/

/-- `encodeCompactSize` (App.tsx): Bitcoin's variable-length integer.
One byte below `0xfd`; `0xfd` + 2 bytes little-endian up to `0xffff`;
`0xfe` + 4 bytes little-endian up to `0xffffffff`; larger values throw. -/
def encodeCompactSize (n : Nat) : Except String (List Nat) :=
  if n < 253 then Except.ok [n]
  else if n ≤ 65535 then Except.ok [253, n % 256, n / 256]
  else if n ≤ 4294967295 then
    Except.ok [254, n % 256, n / 256 % 256, n / 65536 % 256, n / 16777216]
  else Except.error "compactSize too large"

/-- The per-item loop of `witnessStackToScriptWitness`: each item is
prefixed with its own compact-size length; a thrown encoding error
propagates. -/
def witnessItemsSerialize : List (List Nat) → Except String (List Nat)
  | [] => Except.ok []
  | item :: rest =>
    match encodeCompactSize item.length, witnessItemsSerialize rest with
    | Except.ok len, Except.ok tail => Except.ok (len ++ item ++ tail)
    | Except.error e, _ => Except.error e
    | _, Except.error e => Except.error e

/-- `witnessStackToScriptWitness` (App.tsx): item count as a compact
size, then each item length-prefixed, in stack order. -/
def witnessStackToScriptWitness (stack : List (List Nat)) : Except String (List Nat) :=
  match encodeCompactSize stack.length, witnessItemsSerialize stack with
  | Except.ok cnt, Except.ok items => Except.ok (cnt ++ items)
  | Except.error e, _ => Except.error e
  | _, Except.error e => Except.error e

/-! ## Library primitives: SHA-256 and bech32

`bitcoin.payments.p2wsh` hashes the witness script with SHA-256 and
bech32-encodes the 32-byte program with witness version 0.  The spec
treats these as assumed-correct external primitives; they are embedded
here executably so that the address derivation is a total computable
function.
-/

/-- 2^32, the word modulus of SHA-256. -/
def M32 : Nat := 4294967296

/-- Addition mod 2^32. -/
def add32 (a b : Nat) : Nat := (a + b) % M32

/-- Right rotation of a 32-bit word. -/
def rotr32 (n x : Nat) : Nat := (x / 2 ^ n + x % 2 ^ n * 2 ^ (32 - n)) % M32

/-- Logical right shift of a 32-bit word. -/
def shr32 (n x : Nat) : Nat := x / 2 ^ n

/-- SHA-256 round constants (decimal). -/
def sha256K : List Nat :=
  [1116352408, 1899447441, 3049323471, 3921009573, 961987163, 1508970993,
   2453635748, 2870763221, 3624381080, 310598401, 607225278, 1426881987,
   1925078388, 2162078206, 2614888103, 3248222580, 3835390401, 4022224774,
   264347078, 604807628, 770255983, 1249150122, 1555081692, 1996064986,
   2554220882, 2821834349, 2952996808, 3210313671, 3336571891, 3584528711,
   113926993, 338241895, 666307205, 773529912, 1294757372, 1396182291,
   1695183700, 1986661051, 2177026350, 2456956037, 2730485921, 2820302411,
   3259730800, 3345764771, 3516065817, 3600352804, 4094571909, 275423344,
   430227734, 506948616, 659060556, 883997877, 958139571, 1322822218,
   1537002063, 1747873779, 1955562222, 2024104815, 2227730452, 2361852424,
   2428436474, 2756734187, 3204031479, 3329325298]

/-- SHA-256 initial hash state (decimal). -/
def sha256H0 : List Nat :=
  [1779033703, 3144134277, 1013904242, 2773480762,
   1359893119, 2600822924, 528734635, 1541459225]

/-- Big-endian 4-byte words from a byte list. -/
def bytesToWordsBE : List Nat → List Nat
  | a :: b :: c :: d :: r => (a * 16777216 + b * 65536 + c * 256 + d) :: bytesToWordsBE r
  | _ => []

/-- 8-byte big-endian encoding of `n`. -/
def u64BE (n : Nat) : List Nat :=
  [n / 2 ^ 56 % 256, n / 2 ^ 48 % 256, n / 2 ^ 40 % 256, n / 2 ^ 32 % 256,
   n / 2 ^ 24 % 256, n / 2 ^ 16 % 256, n / 2 ^ 8 % 256, n % 256]

/-- SHA-256 padding: `0x80`, zeros to 56 mod 64, then the bit length. -/
def sha256Pad (msg : List Nat) : List Nat :=
  msg ++ [128] ++ List.replicate ((120 - (msg.length + 1) % 64) % 64) 0
    ++ u64BE (8 * msg.length)

/-- Accumulating splitter for `chunk64`: `k` counts the bytes already
in the reversed accumulator `acc`. -/
def chunk64Go (k : Nat) (acc : List Nat) : List Nat → List (List Nat)
  | [] => if acc = [] then [] else [acc.reverse]
  | b :: r =>
    if k = 63 then (b :: acc).reverse :: chunk64Go 0 [] r
    else chunk64Go (k + 1) (b :: acc) r

/-- 64-byte blocks of the padded message. -/
def chunk64 (l : List Nat) : List (List Nat) := chunk64Go 0 [] l

/-- σ0 message-schedule function. -/
def ssig0 (x : Nat) : Nat := rotr32 7 x ^^^ rotr32 18 x ^^^ shr32 3 x

/-- σ1 message-schedule function. -/
def ssig1 (x : Nat) : Nat := rotr32 17 x ^^^ rotr32 19 x ^^^ shr32 10 x

/-- Σ0 compression function. -/
def bsig0 (x : Nat) : Nat := rotr32 2 x ^^^ rotr32 13 x ^^^ rotr32 22 x

/-- Σ1 compression function. -/
def bsig1 (x : Nat) : Nat := rotr32 6 x ^^^ rotr32 11 x ^^^ rotr32 25 x

/-- SHA-256 choice function (32-bit). -/
def chF (x y z : Nat) : Nat := (x &&& y) ^^^ ((x ^^^ 4294967295) &&& z)

/-- SHA-256 majority function. -/
def majF (x y z : Nat) : Nat := (x &&& y) ^^^ (x &&& z) ^^^ (y &&& z)

/-- Append the next message-schedule word. -/
def schedStep (w : List Nat) : List Nat :=
  w ++ [add32 (add32 (ssig1 (w.getD (w.length - 2) 0)) (w.getD (w.length - 7) 0))
              (add32 (ssig0 (w.getD (w.length - 15) 0)) (w.getD (w.length - 16) 0))]

/-- Extend 16 words to the 64-word message schedule. -/
def sha256Sched (w16 : List Nat) : List Nat :=
  (List.range 48).foldl (fun w _ => schedStep w) w16

/-- One SHA-256 compression round on state `[a,b,c,d,e,f,g,h]`. -/
def sha256Round (st : List Nat) (k w : Nat) : List Nat :=
  match st with
  | [a, b, c, d, e, f, g, h] =>
    let t1 := add32 h (add32 (bsig1 e) (add32 (chF e f g) (add32 k w)))
    let t2 := add32 (bsig0 a) (majF a b c)
    [add32 t1 t2, a, b, c, add32 d t1, e, f, g]
  | other => other

/-- Process one 64-byte block. -/
def sha256Block (h : List Nat) (block : List Nat) : List Nat :=
  let w := sha256Sched (bytesToWordsBE block)
  let fin := (sha256K.zip w).foldl (fun st kw => sha256Round st kw.1 kw.2) h
  (h.zip fin).map (fun p => add32 p.1 p.2)

/-- SHA-256 of a byte list, as 32 bytes. -/
def sha256 (msg : List Nat) : List Nat :=
  ((chunk64 (sha256Pad msg)).foldl sha256Block sha256H0).flatMap
    (fun w => [w / 16777216 % 256, w / 65536 % 256, w / 256 % 256, w % 256])

/-- The bech32 data-character alphabet. -/
def bech32Charset : List Char :=
  ['q', 'p', 'z', 'r', 'y', '9', 'x', '8', 'g', 'f', '2', 't', 'v', 'd', 'w', '0',
   's', '3', 'j', 'n', '5', '4', 'k', 'h', 'c', 'e', '6', 'm', 'u', 'a', '7', 'l']

/-- The bech32 checksum polynomial step generators (decimal). -/
def bech32Gen : List Nat := [996825010, 642813549, 513874426, 1027748829, 705979059]

/-- bech32 `polymod` checksum accumulator. -/
def bech32Polymod (values : List Nat) : Nat :=
  values.foldl
    (fun chk v =>
      let b := chk / 2 ^ 25
      (List.range 5).foldl
        (fun c i => if b / 2 ^ i % 2 = 1 then c ^^^ bech32Gen.getD i 0 else c)
        ((chk % 2 ^ 25) * 32 ^^^ v))
    1

/-- bech32 human-readable-part expansion. -/
def bech32HrpExpand (hrp : List Char) : List Nat :=
  hrp.map (fun c => c.toNat / 32) ++ [0] ++ hrp.map (fun c => c.toNat % 32)

/-- bech32 checksum (constant 1, witness version 0 addresses). -/
def bech32Checksum (hrp : List Char) (data : List Nat) : List Nat :=
  let pm := bech32Polymod (bech32HrpExpand hrp ++ data ++ [0, 0, 0, 0, 0, 0]) ^^^ 1
  (List.range 6).map (fun i => pm / 2 ^ (5 * (5 - i)) % 32)

/-- bech32 string: hrp, separator `1`, data and checksum characters. -/
def bech32Encode (hrp : List Char) (data : List Nat) : List Char :=
  hrp ++ ['1'] ++ (data ++ bech32Checksum hrp data).map (fun v => bech32Charset.getD v 'q')

/-- Regroup 8-bit bytes into 5-bit groups, zero-padding the tail
(segwit address `convertbits(data, 8, 5, true)`).  The accumulator
invariant is `bits < 5`. -/
def conv8to5 : List Nat → Nat → Nat → List Nat
  | [], acc, bits => if 0 < bits then [acc * 2 ^ (5 - bits) % 32] else []
  | b :: r, acc, bits =>
    let acc2 := acc * 256 + b
    let bits2 := bits + 8
    if bits2 < 10 then
      acc2 / 2 ^ (bits2 - 5) % 32 :: conv8to5 r (acc2 % 2 ^ (bits2 - 5)) (bits2 - 5)
    else
      acc2 / 2 ^ (bits2 - 5) % 32 :: acc2 / 2 ^ (bits2 - 10) % 32
        :: conv8to5 r (acc2 % 2 ^ (bits2 - 10)) (bits2 - 10)

/-- Segwit v0 address for a 32-byte witness program on testnet
(hrp `tb`), per `bitcoin.payments.p2wsh` with the testnet network. -/
def p2wshAddress (wscript : List Nat) : List Char :=
  bech32Encode ['t', 'b'] (0 :: conv8to5 (sha256 wscript) 0 0)

/-- The P2WSH `scriptPubKey`: `OP_0 <32-byte SHA-256 of the script>`. -/
def p2wshOutputScript (wscript : List Nat) : List Nat :=
  [0, 32] ++ sha256 wscript

/-! ## App.tsx: the witness-script effect (script info display) -/

/-- The derived display state of the witness-script `useEffect`:
script hex and length are always set; address and scriptPubKey only
when the script is within the 3,500-byte policy ceiling. -/
structure ScriptDisplay where
  wscriptHex : List Nat
  wscriptLen : Nat
  p2wshAddr : Option (List Char)
  p2wshScriptPubKey : Option (List Nat)
deriving Repr

/-- The witness-script `useEffect` (App.tsx), given the built witness
script: reports the script bytes and length unconditionally, and
derives the P2WSH address/scriptPubKey only when `length ≤ 3500`
(otherwise both are cleared). -/
def scriptInfoEffect (wscript : List Nat) : ScriptDisplay :=
  { wscriptHex := wscript
    wscriptLen := wscript.length
    p2wshAddr := if wscript.length ≤ 3500 then some (p2wshAddress wscript) else none
    p2wshScriptPubKey :=
      if wscript.length ≤ 3500 then some (p2wshOutputScript wscript) else none }

/-! ## Library primitives: address decoding and transaction size

`psbt.addOutput({address, value})` decodes the recipient through
bitcoinjs-lib `address.toOutputScript`, which tries base58check first
and bech32/bech32m second, and `psbt.extractTransaction()` applies a
maximum-fee-rate check over the extracted transaction's virtual size.
These are embedded below so the assembler's failure paths are modelled.
-/

/-- Node `Buffer.from(str, "hex")`: decode 2-character pairs, stopping
at the first pair that is not two hex digits (a trailing lone character
is dropped); never throws. -/
def nodeBufferFromHex : List Char → List Nat
  | c1 :: c2 :: r =>
    if isHexDigitChar c1 ∧ isHexDigitChar c2 then
      (16 * hexDigitVal c1 + hexDigitVal c2) :: nodeBufferFromHex r
    else []
  | _ => []

/-- ASCII lower-casing as by JavaScript `toLowerCase` on these strings. -/
def toLowerAscii (c : Char) : Char :=
  if 65 ≤ c.toNat ∧ c.toNat ≤ 90 then Char.ofNat (c.toNat + 32) else c

/-- ASCII upper-casing as by JavaScript `toUpperCase` on these strings. -/
def toUpperAscii (c : Char) : Char :=
  if 97 ≤ c.toNat ∧ c.toNat ≤ 122 then Char.ofNat (c.toNat - 32) else c

/-- First index of `c` in a character list. -/
def charIdx (c : Char) : List Char → Option Nat
  | [] => none
  | a :: r => if a = c then some 0 else (charIdx c r).map (· + 1)

/-- The base58 alphabet (no `0`, `O`, `I`, `l`). -/
def base58Chars : List Char :=
  ['1', '2', '3', '4', '5', '6', '7', '8', '9', 'A', 'B', 'C', 'D', 'E', 'F', 'G',
   'H', 'J', 'K', 'L', 'M', 'N', 'P', 'Q', 'R', 'S', 'T', 'U', 'V', 'W', 'X', 'Y',
   'Z', 'a', 'b', 'c', 'd', 'e', 'f', 'g', 'h', 'i', 'j', 'k', 'm', 'n', 'o', 'p',
   'q', 'r', 's', 't', 'u', 'v', 'w', 'x', 'y', 'z']

/-- Base58 digits as one big-endian number; `none` on a character
outside the alphabet. -/
def base58ToNum (s : List Char) : Option Nat :=
  s.foldl
    (fun acc c =>
      match acc, charIdx c base58Chars with
      | some a, some i => some (a * 58 + i)
      | _, _ => none)
    (some 0)

/-- Minimal big-endian byte representation of `n`. -/
def natToBytesBE (n : Nat) : List Nat :=
  if n = 0 then [] else natToBytesBE (n / 256) ++ [n % 256]
termination_by n
decreasing_by
  exact Nat.div_lt_self (by omega) (by omega)

/-- Base58 decoding: leading `1` characters become leading zero bytes,
the remaining value big-endian. -/
def base58Decode (s : List Char) : Option (List Nat) :=
  match base58ToNum s with
  | none => none
  | some n =>
    some (List.replicate (s.takeWhile (fun c => c = '1')).length 0 ++ natToBytesBE n)

/-- Double SHA-256. -/
def sha256d (b : List Nat) : List Nat := sha256 (sha256 b)

/-- bitcoinjs-lib `fromBase58Check`: base58-decode, verify the 4-byte
double-SHA-256 checksum, and require a 21-byte payload (version byte
followed by a 20-byte hash). -/
def fromBase58Check (s : List Char) : Option (Nat × List Nat) :=
  match base58Decode s with
  | none => none
  | some buf =>
    if buf.drop (buf.length - 4) = (sha256d (buf.take (buf.length - 4))).take 4
        ∧ (buf.take (buf.length - 4)).length = 21 then
      some ((buf.take (buf.length - 4)).headD 0, (buf.take (buf.length - 4)).drop 1)
    else none

/-- Regroup 5-bit words into bytes with strict (no-padding) semantics:
fails on excess padding (5 or more leftover bits) or non-zero padding
bits, as the bech32 library's `fromWords`. -/
def from5to8 : List Nat → Nat → Nat → Option (List Nat)
  | [], acc, bits =>
    if 5 ≤ bits then none
    else if acc * 2 ^ (8 - bits) % 256 ≠ 0 then none
    else some []
  | w :: r, acc, bits =>
    if 8 ≤ bits + 5 then
      (from5to8 r ((acc * 32 + w) % 2 ^ (bits + 5 - 8)) (bits + 5 - 8)).map
        (fun out => (acc * 32 + w) / 2 ^ (bits + 5 - 8) % 256 :: out)
    else from5to8 r (acc * 32 + w) (bits + 5)

/-- Map bech32 data characters to their 5-bit values; `none` on an
unknown character. -/
def charsToWords : List Char → Option (List Nat)
  | [] => some []
  | c :: r =>
    match charIdx c bech32Charset, charsToWords r with
    | some i, some w => some (i :: w)
    | _, _ => none

/-- The bech32m checksum constant (decimal for 0x2bc830a3). -/
def BECH32M_CONST : Nat := 734539939

/-- bech32 decoding against the checksum constant `cst`: length bounds
8..90, no mixed case, split at the last `1`, non-empty hrp of printable
characters, at least 6 data characters, all in the charset, and a
verifying checksum; returns the hrp and the data words without the
6 checksum words. -/
def bech32DecodeWith (cst : Nat) (s : List Char) : Option (List Char × List Nat) :=
  if s.length < 8 ∨ 90 < s.length then none
  else if s ≠ s.map toLowerAscii ∧ s ≠ s.map toUpperAscii then none
  else
    match charIdx '1' (s.map toLowerAscii).reverse with
    | none => none
    | some ri =>
      if (s.map toLowerAscii).length - 1 - ri = 0 then none
      else
        match charsToWords ((s.map toLowerAscii).drop ((s.map toLowerAscii).length - ri)) with
        | none => none
        | some words =>
          if words.length < 6 then none
          else if ¬ ((s.map toLowerAscii).take ((s.map toLowerAscii).length - 1 - ri)).all
              (fun c => 33 ≤ c.toNat ∧ c.toNat ≤ 126) then none
          else if bech32Polymod
              (bech32HrpExpand ((s.map toLowerAscii).take ((s.map toLowerAscii).length - 1 - ri))
                ++ words) = cst then
            some ((s.map toLowerAscii).take ((s.map toLowerAscii).length - 1 - ri),
                  words.take (words.length - 6))
          else none

/-- bitcoinjs-lib `address.fromBech32`: try bech32 (version must be 0),
then bech32m (version must not be 0); convert the data words to bytes
strictly.  All throwing paths collapse to `none` (the caller catches). -/
def fromBech32 (s : List Char) : Option (Nat × List Char × List Nat) :=
  match bech32DecodeWith 1 s with
  | some (hrp, words) =>
    match words with
    | [] => none
    | v :: rest =>
      if v = 0 then (from5to8 rest 0 0).map (fun data => (0, hrp, data)) else none
  | none =>
    match bech32DecodeWith BECH32M_CONST s with
    | some (hrp, words) =>
      match words with
      | [] => none
      | v :: rest =>
        if v ≠ 0 then (from5to8 rest 0 0).map (fun data => (v, hrp, data)) else none
    | none => none

/-- bitcoinjs-lib `address.toOutputScript` for the testnet network
(base58 versions 0x6f/0xc4, bech32 hrp `tb`): base58check addresses map
to P2PKH/P2SH scripts, bech32 version 0 to P2WPKH/P2WSH, version 1 with
a 32-byte program to P2TR.  `none` models the thrown
"has no matching Script" errors.  (The elliptic-curve point validation
that `payments.p2tr` performs on version-1 programs is not modelled.) -/
def toOutputScript (addr : List Char) : Option (List Nat) :=
  match fromBase58Check addr with
  | some (version, hash) =>
    if version = 111 then some ([118, 169, 20] ++ hash ++ [136, 172])
    else if version = 196 then some ([169, 20] ++ hash ++ [135])
    else none
  | none =>
    match fromBech32 addr with
    | some (v, hrp, data) =>
      if hrp ≠ ['t', 'b'] then none
      else if v = 0 ∧ data.length = 20 then some ([0, 20] ++ data)
      else if v = 0 ∧ data.length = 32 then some ([0, 32] ++ data)
      else if v = 1 ∧ data.length = 32 then some ([81, 32] ++ data)
      else none
    | none => none

/-- Virtual size of the extracted reveal transaction: one input with an
empty scriptSig, one output whose scriptPubKey has `spkLen` bytes, and a
serialized witness field of `wLen` bytes.  Base size is `60 + spkLen`,
total size `62 + spkLen + wLen`, weight `3 * base + total`, and the
virtual size is the weight divided by 4, rounded up. -/
def txVirtualSize (spkLen wLen : Nat) : Nat :=
  (3 * (60 + spkLen) + (62 + spkLen + wLen) + 3) / 4

/-! ## App.tsx: reveal-transaction assembler -/

/-- The inputs read by `buildAndBroadcastSpend`.  `fundingVout = none`
and `fundingValue = none` model the empty-string form states; empty
strings model the other missing fields. -/
structure SpendParams where
  wscriptLen : Nat
  wscript : List Nat
  fundingTxid : List Char
  fundingVout : Option Nat
  fundingValue : Option Int
  recipient : List Char
  sendFee : Int

/-- The transaction assembled by `buildAndBroadcastSpend`: one input
spending the funding outpoint with the witness script as sole witness
item, one output paying `value - fee` to the recipient. -/
structure RevealTx where
  txid : List Char
  vout : Nat
  inputValue : Int
  witnessScript : List Nat
  recipient : List Char
  outputValue : Int
  finalScriptWitness : List Nat

/-- The build stage of `buildAndBroadcastSpend` (App.tsx): the four
precondition checks in source order, then the PSBT assembly with the
manually finalized witness.  The PSBT stage models the library's
failure paths in their order of execution: `psbt.addInput` requires the
hex txid to decode (Node `Buffer.from(…, "hex")`) to a 32-byte hash and
the output index to be a `UInt32`; `psbt.addOutput` decodes the
recipient through `toOutputScript` and typechecks the output value as a
satoshi amount (at most 21·10¹⁴); the witness field is serialized by
`witnessStackToScriptWitness`; `psbt.extractTransaction` rejects a fee
rate of 5,000 sat/vbyte or more over the transaction's virtual size.
(Library checks that cannot fire for the app's inputs — the P2WSH
template check on the witness script, taproot field checks, partial-sig
checks — are not modelled.)  A thrown error is an `Except.error` and no
transaction value is produced on any failing path. -/
def buildAndBroadcastSpend (p : SpendParams) : Except String RevealTx :=
  if p.wscriptLen = 0 ∨ p.wscript = [] then Except.error "witnessScript missing"
  else if p.fundingTxid = [] ∨ p.fundingVout = none ∨ p.fundingValue = none then
    Except.error "Missing funding outpoint or value"
  else if p.recipient = [] then Except.error "Recipient address required"
  else if p.sendFee ≤ 0 ∨ p.fundingValue.getD 0 ≤ p.sendFee then
    Except.error "Fee must be >0 and < input value"
  else if (nodeBufferFromHex p.fundingTxid).length ≠ 32 then
    Except.error "Expected Hash256 bit, got Buffer"
  else if 4294967295 < p.fundingVout.getD 0 then
    Except.error "Expected UInt32, got Number"
  else
    match toOutputScript p.recipient with
    | none => Except.error "has no matching Script"
    | some spk =>
      if 2100000000000000 < p.fundingValue.getD 0 - p.sendFee then
        Except.error "Expected Satoshi, got Number"
      else
        match witnessStackToScriptWitness [p.wscript] with
        | Except.error e => Except.error e
        | Except.ok w =>
          if 5000 ≤ p.sendFee.toNat / txVirtualSize spk.length w.length then
            Except.error "Warning: You are paying an absurdly high fee"
          else
            Except.ok
              { txid := p.fundingTxid
                vout := p.fundingVout.getD 0
                inputValue := p.fundingValue.getD 0
                witnessScript := p.wscript
                recipient := p.recipient
                outputValue := p.fundingValue.getD 0 - p.sendFee
                finalScriptWitness := w }

/-- A concrete, well-formed invocation of the assembler whose witness
script has 3,501 bytes — one over the 3,500-byte policy ceiling: the
txid is 64 hex digits (32 bytes of `0xaa`), the outpoint and value are
present, the recipient is a valid testnet bech32 P2WSH address, and the
fee is within bounds. -/
def oversizeSpendParams : SpendParams :=
  { wscriptLen := 3501
    wscript := List.replicate 3501 0
    fundingTxid := List.replicate 64 'a'
    fundingVout := some 0
    fundingValue := some 10000
    recipient := p2wshAddress [81]
    sendFee := 500 }

/-! ## Helper lemmas: decompilation -/

theorem decompile_nil : decompile [] = some [] := by
  rw [decompile]

theorem decompile_cons_op (b : Nat) (rest : List Nat) (hb : b = 0 ∨ 78 < b) :
    decompile (b :: rest) = (decompile rest).map (fun cs => Chunk.op b :: cs) := by
  have h : ¬(1 ≤ b ∧ b ≤ 78) := by omega
  rw [decompile]
  simp only [if_neg h]
  cases decompile rest <;> simp

theorem decompile_push_step (b : Nat) (rest : List Nat) (num hdrlen : Nat)
    (hb : 1 ≤ b ∧ b ≤ 78) (hh : pushHeader b rest = some (num, hdrlen))
    (hlen : num ≤ (rest.drop hdrlen).length) :
    decompile (b :: rest) =
      (decompile ((rest.drop hdrlen).drop num)).map
        (fun cs => chunkOfData ((rest.drop hdrlen).take num) :: cs) := by
  rw [decompile]
  simp only [if_pos hb, hh, if_pos hlen]
  cases decompile ((rest.drop hdrlen).drop num) <;> simp

theorem decompile_push_small (n : Nat) (d rest : List Nat) (h1 : 1 ≤ n) (h75 : n ≤ 75)
    (hd : d.length = n) :
    decompile (n :: (d ++ rest)) = (decompile rest).map (fun cs => chunkOfData d :: cs) := by
  have hh : pushHeader n (d ++ rest) = some (n, 0) := by
    simp only [pushHeader, if_pos (by omega : n < 76)]
  have hstep := decompile_push_step n (d ++ rest) n 0 ⟨h1, by omega⟩ hh
    (by simp [List.length_append]; omega)
  rw [hstep]
  simp only [List.drop_zero]
  rw [List.take_left' hd, List.drop_left' hd]

theorem decompile_push_data1 (n : Nat) (d rest : List Nat) (hd : d.length = n) :
    decompile (76 :: n :: (d ++ rest)) =
      (decompile rest).map (fun cs => chunkOfData d :: cs) := by
  have hh : pushHeader 76 (n :: (d ++ rest)) = some (n, 1) := by
    simp [pushHeader]
  have hstep := decompile_push_step 76 (n :: (d ++ rest)) n 1 (by omega) hh
    (by simp [List.length_append]; omega)
  rw [hstep]
  simp only [List.drop_one, List.tail_cons]
  rw [List.take_left' hd, List.drop_left' hd]

theorem decompile_push_data2 (n : Nat) (d rest : List Nat) (hd : d.length = n) :
    decompile (77 :: n % 256 :: n / 256 :: (d ++ rest)) =
      (decompile rest).map (fun cs => chunkOfData d :: cs) := by
  have hh : pushHeader 77 (n % 256 :: n / 256 :: (d ++ rest)) = some (n, 2) := by
    simp only [pushHeader]
    norm_num
    omega
  have hstep := decompile_push_step 77 (n % 256 :: n / 256 :: (d ++ rest)) n 2 (by omega) hh
    (by simp [List.length_append]; omega)
  rw [hstep]
  simp only [List.drop_succ_cons, List.drop_zero]
  rw [List.take_left' hd, List.drop_left' hd]

theorem asMinimalOP_range (d : List Nat) (o : Nat) (h : asMinimalOP d = some o) :
    o = 0 ∨ (79 ≤ o ∧ o ≤ 96) := by
  match d with
  | [] =>
    simp [asMinimalOP, OP_FALSE] at h
    omega
  | [x] =>
    simp only [asMinimalOP, OP_RESERVED, OP_1NEGATE] at h
    split at h
    · rename_i hx
      simp only [Option.some.injEq] at h
      omega
    · split at h
      · simp only [Option.some.injEq] at h
        omega
      · exact absurd h (by simp)
  | _ :: _ :: _ => simp [asMinimalOP] at h

theorem asMinimalOP_none_ne_nil (d : List Nat) (h : asMinimalOP d = none) : d ≠ [] := by
  intro hd
  rw [hd] at h
  simp [asMinimalOP] at h

theorem decompile_minimalPush (d rest : List Nat) (hlen : d.length ≤ 65535) :
    decompile (minimalPush d ++ rest) = (decompile rest).map (fun cs => chunkOfData d :: cs) := by
  cases hmin : asMinimalOP d with
  | some o =>
    have hrange := asMinimalOP_range d o hmin
    have : minimalPush d ++ rest = o :: rest := by simp [minimalPush, hmin]
    rw [this, decompile_cons_op o rest (by omega)]
    simp [chunkOfData, hmin]
  | none =>
    have hne : d ≠ [] := asMinimalOP_none_ne_nil d hmin
    have hpos : 1 ≤ d.length := List.length_pos.mpr hne
    by_cases h75 : d.length ≤ 75
    · have : minimalPush d ++ rest = d.length :: (d ++ rest) := by
        simp [minimalPush, hmin, pushdataHeader, if_pos (by omega : d.length < 76)]
      rw [this, decompile_push_small d.length d rest hpos h75 rfl]
    · by_cases h255 : d.length ≤ 255
      · have : minimalPush d ++ rest = 76 :: d.length :: (d ++ rest) := by
          simp only [minimalPush, hmin, pushdataHeader, OP_PUSHDATA1]
          rw [if_neg (by omega), if_pos (by omega)]
          simp
        rw [this, decompile_push_data1 d.length d rest rfl]
      · have : minimalPush d ++ rest
            = 77 :: d.length % 256 :: d.length / 256 :: (d ++ rest) := by
          simp only [minimalPush, hmin, pushdataHeader, OP_PUSHDATA1, OP_PUSHDATA2]
          rw [if_neg (by omega), if_neg (by omega), if_pos (by omega)]
          simp
        rw [this, decompile_push_data2 d.length d rest rfl]

theorem decompile_all_ops (l : List Nat) (h : ∀ b ∈ l, b = 0 ∨ 78 < b) :
    decompile l = some (l.map Chunk.op) := by
  induction l with
  | nil => exact decompile_nil
  | cons b rest ih =>
    rw [decompile_cons_op b rest (h b (by simp)), ih (fun x hx => h x (by simp [hx]))]
    simp

/-! ## Helper lemmas: payload chunking -/

theorem chunkData_nil : chunkData [] = [] := by
  rw [chunkData]

theorem chunkData_cons (b : Nat) (r : List Nat) :
    chunkData (b :: r) = (b :: r).take 520 :: chunkData ((b :: r).drop 520) := by
  rw [chunkData]

theorem chunkData_ne_nil (d : List Nat) (h : d ≠ []) :
    chunkData d = d.take 520 :: chunkData (d.drop 520) := by
  match d with
  | [] => exact absurd rfl h
  | b :: r => exact chunkData_cons b r

theorem chunkData_flatten : ∀ (n : Nat) (d : List Nat), d.length ≤ n →
    (chunkData d).flatten = d := by
  intro n
  induction n with
  | zero =>
    intro d h
    have : d = [] := List.eq_nil_of_length_eq_zero (by omega)
    rw [this, chunkData_nil]
    simp
  | succ n ih =>
    intro d h
    match d with
    | [] => rw [chunkData_nil]; simp
    | b :: r =>
      rw [chunkData_cons]
      have hrec := ih ((b :: r).drop 520)
        (by simp only [List.length_drop, List.length_cons] at h ⊢; omega)
      simp only [List.flatten_cons, hrec]
      exact List.take_append_drop 520 (b :: r)

theorem chunkData_sizes : ∀ (n : Nat) (d : List Nat), d.length ≤ n →
    ∀ c ∈ chunkData d, c.length ≤ 520 := by
  intro n
  induction n with
  | zero =>
    intro d h
    have : d = [] := List.eq_nil_of_length_eq_zero (by omega)
    rw [this, chunkData_nil]
    simp
  | succ n ih =>
    intro d h c hc
    match d with
    | [] => rw [chunkData_nil] at hc; simp at hc
    | b :: r =>
      rw [chunkData_cons] at hc
      rcases List.mem_cons.mp hc with rfl | hmem
      · simp [List.length_take]
      · exact ih ((b :: r).drop 520)
          (by simp only [List.length_drop, List.length_cons] at h ⊢; omega) c hmem

/-! ## Helper lemmas: bare envelope -/

theorem buildEnvelopeScript_eq (d : List Nat) :
    buildEnvelopeScript d = 0 :: 99 :: (minimalPush d ++ [104, 81]) := by
  simp [buildEnvelopeScript, compile, compileChunk, OP_FALSE, OP_IF, OP_ENDIF, OP_TRUE]

theorem decompile_buildEnvelopeScript (d : List Nat) (hlen : d.length ≤ 65535) :
    decompile (buildEnvelopeScript d) =
      some [Chunk.op 0, Chunk.op 99, chunkOfData d, Chunk.op 104, Chunk.op 81] := by
  rw [buildEnvelopeScript_eq]
  rw [decompile_cons_op 0 _ (Or.inl rfl), decompile_cons_op 99 _ (Or.inr (by omega))]
  rw [decompile_minimalPush d [104, 81] hlen]
  rw [decompile_cons_op 104 _ (Or.inr (by omega)), decompile_cons_op 81 _ (Or.inr (by omega)),
      decompile_nil]
  simp

theorem parseEnvelopeScript_none_eq (s : List Nat) (hdec : decompile s = none) :
    parseEnvelopeScript s = none := by
  unfold parseEnvelopeScript
  rw [hdec]

theorem parseEnvelopeScript_some_eq (s : List Nat) (chunks : List Chunk)
    (hdec : decompile s = some chunks) :
    parseEnvelopeScript s =
      (if chunks.length < 5 then none
       else if chunks.get? 0 = some (Chunk.op OP_FALSE)
           ∧ chunks.get? 1 = some (Chunk.op OP_IF)
           ∧ chunks.get? (chunks.length - 2) = some (Chunk.op OP_ENDIF)
           ∧ chunks.get? (chunks.length - 1) = some (Chunk.op OP_TRUE) then
         match chunks.get? 2 with
         | some (Chunk.buf d) => some d
         | _ => none
       else none) := by
  unfold parseEnvelopeScript
  rw [hdec]

theorem parse_of_decompiled_envelope (s : List Nat) (d : List Nat)
    (hdec : decompile s = some [Chunk.op 0, Chunk.op 99, Chunk.buf d, Chunk.op 104, Chunk.op 81]) :
    parseEnvelopeScript s = some d := by
  simp [parseEnvelopeScript, hdec, OP_FALSE, OP_IF, OP_ENDIF, OP_TRUE]

/-! ## Helper lemmas: hex decoding -/

theorem hex_not_space (c : Char) (h : isHexDigitChar c = true) : isJsSpace c = false := by
  simp only [isHexDigitChar, decide_eq_true_eq] at h
  simp only [isJsSpace, decide_eq_false_iff_not]
  omega

theorem dropWhile_eq_self_of_not (p : Char → Bool) (l : List Char)
    (h : ∀ c ∈ l, p c = false) : l.dropWhile p = l := by
  cases l with
  | nil => rfl
  | cons a t => simp [List.dropWhile_cons, h a (by simp)]

theorem jsTrim_of_hex (s : List Char) (h : s.all isHexDigitChar = true) : jsTrim s = s := by
  have hns : ∀ c ∈ s, isJsSpace c = false := fun c hc =>
    hex_not_space c (List.all_eq_true.mp h c hc)
  unfold jsTrim
  rw [dropWhile_eq_self_of_not _ s hns,
      dropWhile_eq_self_of_not _ s.reverse (fun c hc => hns c (List.mem_reverse.mp hc)),
      List.reverse_reverse]

theorem strip0x_of_hex (s : List Char) (h : s.all isHexDigitChar = true) : strip0x s = s := by
  match s with
  | [] => rfl
  | [c] => rfl
  | c0 :: c1 :: r =>
    simp only [strip0x]
    rw [if_neg]
    rintro ⟨rfl, rfl⟩
    have h1 : isHexDigitChar 'x' = true := by
      simp only [List.all_cons, Bool.and_eq_true] at h
      exact h.2.1
    exact absurd h1 (by decide)

theorem hexVal_lt (c : Char) : hexDigitVal c ≤ 15 := by
  simp only [hexDigitVal]
  split
  · omega
  · split
    · omega
    · split
      · omega
      · omega

theorem jsParseIntHex_pair (c1 c2 : Char) (h1 : isHexDigitChar c1 = true)
    (h2 : isHexDigitChar c2 = true) :
    jsParseIntHex [c1, c2] = some (16 * (hexDigitVal c1 : Int) + hexDigitVal c2) := by
  have hs1 : isJsSpace c1 = false := hex_not_space c1 h1
  have hne1 : ¬ c1 = '-' := by
    rintro rfl
    exact absurd h1 (by decide)
  have hne2 : ¬ c1 = '+' := by
    rintro rfl
    exact absurd h1 (by decide)
  have hmark : stripHexMarker [c1, c2] = [c1, c2] := by
    simp only [stripHexMarker]
    rw [if_neg]
    rintro ⟨rfl, hx⟩
    rcases hx with rfl | rfl
    · exact absurd h2 (by decide)
    · exact absurd h2 (by decide)
  simp only [jsParseIntHex, List.dropWhile_cons, hs1, Bool.false_eq_true, if_false, hmark,
    List.takeWhile_cons, h1, h2, if_neg hne1, if_neg (by tauto : ¬(c1 = '-' ∨ c1 = '+'))]
  simp [List.foldl]
  ring

theorem hexPairsToBytes_agree : ∀ (n : Nat) (s : List Char), s.length ≤ n →
    s.all isHexDigitChar = true → hexPairsToBytes s = hexPairsVal s := by
  intro n
  induction n with
  | zero =>
    intro s hl _
    match s with
    | [] => rfl
    | c :: r => simp at hl
  | succ n ih =>
    intro s hl hall
    match s with
    | [] => rfl
    | [c] => rfl
    | c1 :: c2 :: r =>
      simp only [List.all_cons, Bool.and_eq_true] at hall
      obtain ⟨h1, h2, hr⟩ := hall
      simp only [hexPairsToBytes, hexPairsVal, List.cons.injEq]
      constructor
      · rw [jsParseIntHex_pair c1 c2 h1 h2]
        have hv1 := hexVal_lt c1
        have hv2 := hexVal_lt c2
        simp only [jsToUint8]
        rw [Int.emod_eq_of_lt (by positivity) (by omega)]
        omega
      · exact ih r (by simp only [List.length_cons] at hl; omega) hr

/-! ## Helper lemmas: compact size and spend assembly -/

theorem encodeCompactSize_isOk (n : Nat) (h : n ≤ 4294967295) :
    ∃ bs, encodeCompactSize n = Except.ok bs := by
  unfold encodeCompactSize
  by_cases h1 : n < 253
  · rw [if_pos h1]
    exact ⟨_, rfl⟩
  · rw [if_neg h1]
    by_cases h2 : n ≤ 65535
    · rw [if_pos h2]
      exact ⟨_, rfl⟩
    · rw [if_neg h2, if_pos h]
      exact ⟨_, rfl⟩

theorem encodeCompactSize_isErr (n : Nat) (h : 4294967295 < n) :
    encodeCompactSize n = Except.error "compactSize too large" := by
  unfold encodeCompactSize
  rw [if_neg (by omega), if_neg (by omega), if_neg (by omega)]

theorem buildSpend_err_of_fee (p : SpendParams)
    (hbad : p.sendFee ≤ 0 ∨ p.fundingValue.getD 0 ≤ p.sendFee) :
    ∃ e, buildAndBroadcastSpend p = Except.error e := by
  unfold buildAndBroadcastSpend
  by_cases c1 : p.wscriptLen = 0 ∨ p.wscript = []
  · rw [if_pos c1]
    exact ⟨_, rfl⟩
  · rw [if_neg c1]
    by_cases c2 : p.fundingTxid = [] ∨ p.fundingVout = none ∨ p.fundingValue = none
    · rw [if_pos c2]
      exact ⟨_, rfl⟩
    · rw [if_neg c2]
      by_cases c3 : p.recipient = []
      · rw [if_pos c3]
        exact ⟨_, rfl⟩
      · rw [if_neg c3, if_pos hbad]
        exact ⟨_, rfl⟩

theorem buildSpend_ok_fee (p : SpendParams) (t : RevealTx)
    (h : buildAndBroadcastSpend p = Except.ok t) :
    ¬(p.sendFee ≤ 0 ∨ p.fundingValue.getD 0 ≤ p.sendFee) := by
  intro hbad
  obtain ⟨e, he⟩ := buildSpend_err_of_fee p hbad
  rw [h] at he
  simp at he

theorem buildSpend_ok_of (p : SpendParams) (v : Int) (spk w : List Nat)
    (h1 : p.wscriptLen ≠ 0) (h2 : p.wscript ≠ [])
    (h3 : p.fundingTxid ≠ []) (h4 : p.fundingVout ≠ none) (hv : p.fundingValue = some v)
    (h5 : p.recipient ≠ []) (hf1 : 0 < p.sendFee) (hf2 : p.sendFee < v)
    (htx : (nodeBufferFromHex p.fundingTxid).length = 32)
    (hvout : p.fundingVout.getD 0 ≤ 4294967295)
    (hspk : toOutputScript p.recipient = some spk)
    (hsat : v - p.sendFee ≤ 2100000000000000)
    (hw : witnessStackToScriptWitness [p.wscript] = Except.ok w)
    (hfee : p.sendFee.toNat / txVirtualSize spk.length w.length < 5000) :
    buildAndBroadcastSpend p =
      Except.ok { txid := p.fundingTxid, vout := p.fundingVout.getD 0, inputValue := v,
                  witnessScript := p.wscript, recipient := p.recipient,
                  outputValue := v - p.sendFee, finalScriptWitness := w } := by
  unfold buildAndBroadcastSpend
  have c1 : ¬(p.wscriptLen = 0 ∨ p.wscript = []) := by tauto
  have c2 : ¬(p.fundingTxid = [] ∨ p.fundingVout = none ∨ p.fundingValue = none) := by
    rintro (h | h | h) <;> simp_all
  have c4 : ¬(p.sendFee ≤ 0 ∨ p.fundingValue.getD 0 ≤ p.sendFee) := by
    rw [hv]
    simp only [Option.getD_some]
    omega
  have c5 : ¬((nodeBufferFromHex p.fundingTxid).length ≠ 32) := by omega
  have c6 : ¬(4294967295 < p.fundingVout.getD 0) := by omega
  have c7 : ¬(2100000000000000 < v - p.sendFee) := by omega
  have c8 : ¬(5000 ≤ p.sendFee.toNat / txVirtualSize spk.length w.length) := by omega
  rw [if_neg c1, if_neg c2, if_neg h5, if_neg c4, if_neg c5, if_neg c6, hspk]
  simp only [hv, Option.getD_some, if_neg c7, hw, if_neg c8]

/-! ## Claim theorems -/

/-- C4: `encodeCompactSize` returns one byte holding `n` when `n < 0xfd`;
the marker `0xfd` with 2 little-endian bytes for `n` in `[0xfd, 0xffff]`;
the marker `0xfe` with 4 little-endian bytes for `n` in
`[0x10000, 0xffffffff]`; and an error for larger `n`; with the five
boundary values `0`, `252`, `253`, `65535`, `65536` evaluated. -/
theorem encodeCompactSize_spec (n : Nat) :
    (n < 253 → encodeCompactSize n = Except.ok [n]) ∧
    (253 ≤ n → n ≤ 65535 → encodeCompactSize n = Except.ok [253, n % 256, n / 256]) ∧
    (65536 ≤ n → n ≤ 4294967295 →
      encodeCompactSize n
        = Except.ok [254, n % 256, n / 256 % 256, n / 65536 % 256, n / 16777216]) ∧
    (4294967295 < n → encodeCompactSize n = Except.error "compactSize too large") ∧
    encodeCompactSize 0 = Except.ok [0] ∧
    encodeCompactSize 252 = Except.ok [252] ∧
    encodeCompactSize 253 = Except.ok [253, 253, 0] ∧
    encodeCompactSize 65535 = Except.ok [253, 255, 255] ∧
    encodeCompactSize 65536 = Except.ok [254, 0, 0, 1, 0] := by
  refine ⟨fun h1 => ?_, fun h1 h2 => ?_, fun h1 h2 => ?_, fun h1 => ?_,
    rfl, rfl, rfl, rfl, rfl⟩
  · simp only [encodeCompactSize]
    rw [if_pos h1]
  · simp only [encodeCompactSize]
    rw [if_neg (by omega), if_pos h2]
  · simp only [encodeCompactSize]
    rw [if_neg (by omega), if_neg (by omega), if_pos h2]
  · exact encodeCompactSize_isErr n h1

/-- Witness for `encodeCompactSize_spec`: the 2-byte form at `n = 300`
and the 4-byte form at `n = 70000`. -/
theorem encodeCompactSize_spec_witness :
    (253 ≤ 300 ∧ encodeCompactSize 300 = Except.ok [253, 44, 1]) ∧
    (65536 ≤ 70000 ∧ encodeCompactSize 70000 = Except.ok [254, 112, 17, 1, 0]) :=
  ⟨⟨by omega, (encodeCompactSize_spec 300).2.1 (by omega) (by omega)⟩,
   ⟨by omega, (encodeCompactSize_spec 70000).2.2.1 (by omega) (by omega)⟩⟩

/-- C6: for a witness script longer than 3,500 bytes the script-info
effect derives no P2WSH address and no scriptPubKey, while the script
bytes and length are still reported; for a script of at most 3,500
bytes both the address and the scriptPubKey are produced. -/
theorem scriptInfo_policy_gate (s : List Nat) :
    (scriptInfoEffect s).wscriptHex = s ∧
    (scriptInfoEffect s).wscriptLen = s.length ∧
    (3500 < s.length →
      (scriptInfoEffect s).p2wshAddr = none ∧
      (scriptInfoEffect s).p2wshScriptPubKey = none) ∧
    (s.length ≤ 3500 →
      (scriptInfoEffect s).p2wshAddr = some (p2wshAddress s) ∧
      (scriptInfoEffect s).p2wshScriptPubKey = some (p2wshOutputScript s)) := by
  refine ⟨rfl, rfl, fun h => ?_, fun h => ?_⟩
  · have hn : ¬ s.length ≤ 3500 := by omega
    simp [scriptInfoEffect, hn]
  · simp [scriptInfoEffect, h]

/-- Witness for `scriptInfo_policy_gate` at a 3,501-byte script (no
address derived) and at the 1-byte script `[0x51]` (address derived). -/
theorem scriptInfo_policy_gate_witness :
    (3500 < (List.replicate 3501 0).length ∧
      (scriptInfoEffect (List.replicate 3501 0)).p2wshAddr = none) ∧
    (([81] : List Nat).length ≤ 3500 ∧
      (scriptInfoEffect [81]).p2wshAddr = some (p2wshAddress [81])) :=
  ⟨⟨by rw [List.length_replicate]; omega,
    ((scriptInfo_policy_gate (List.replicate 3501 0)).2.2.1
      (by rw [List.length_replicate]; omega)).1⟩,
   ⟨by simp, ((scriptInfo_policy_gate [81]).2.2.2 (by simp)).1⟩⟩

/-- C9: the inscription builder splits the payload into consecutive
chunks of at most 520 bytes each whose in-order concatenation is the
payload; the empty payload yields zero chunks; a payload of exactly
1040 bytes yields exactly two chunks of 520 bytes each, not three. -/
theorem inscription_chunking (d : List Nat) :
    (∀ c ∈ chunkData d, c.length ≤ 520) ∧
    (chunkData d).flatten = d ∧
    chunkData ([] : List Nat) = [] ∧
    (d.length = 1040 →
      (chunkData d).length = 2 ∧ ∀ c ∈ chunkData d, c.length = 520) := by
  refine ⟨chunkData_sizes d.length d le_rfl, chunkData_flatten d.length d le_rfl,
    chunkData_nil, fun h1040 => ?_⟩
  have hne : d ≠ [] := by
    intro h
    rw [h] at h1040
    simp at h1040
  have hdrop : (d.drop 520) ≠ [] := by
    intro h
    have := congrArg List.length h
    simp [List.length_drop, h1040] at this
  have h3 : (d.drop 520).drop 520 = [] := by
    apply List.eq_nil_of_length_eq_zero
    simp [List.length_drop, h1040]
  rw [chunkData_ne_nil d hne, chunkData_ne_nil (d.drop 520) hdrop, h3, chunkData_nil]
  refine ⟨rfl, fun c hc => ?_⟩
  simp only [List.mem_cons, List.not_mem_nil, or_false] at hc
  rcases hc with rfl | rfl
  · simp only [List.length_take, h1040]
    omega
  · simp only [List.length_take, List.length_drop, h1040]
    omega

/-- Witness for `inscription_chunking` at a concrete 1040-byte payload. -/
theorem inscription_chunking_witness :
    (List.replicate 1040 7).length = 1040 ∧
      (chunkData (List.replicate 1040 7)).length = 2 :=
  ⟨by rw [List.length_replicate],
   ((inscription_chunking (List.replicate 1040 7)).2.2.2 (by rw [List.length_replicate])).1⟩

/-- C3 counterexample: the hex string `"zz"` has no valid hex digit, yet
`hexToBytes` does not fail — `parseInt` yields `NaN`, the `Uint8Array`
store coerces it to `0`, and the decode succeeds with `[0]`. -/
theorem hexToBytes_invalid_digits_ok : hexToBytes ['z', 'z'] = Except.ok [0] := rfl

/-- C3 amended: `hexToBytes` fails exactly when the trimmed, `0x`-stripped
input has odd length; on even length it always succeeds — invalid digits
are decoded leniently instead of failing; and on an even-length string of
valid hex digits it returns the denoted byte sequence. -/
theorem hexToBytes_amended (s : List Char) :
    ((strip0x (jsTrim s)).length % 2 = 1 →
      hexToBytes s = Except.error "Hex length must be even") ∧
    ((strip0x (jsTrim s)).length % 2 = 0 →
      hexToBytes s = Except.ok (hexPairsToBytes (strip0x (jsTrim s)))) ∧
    (s.all isHexDigitChar = true → s.length % 2 = 0 →
      hexToBytes s = Except.ok (hexPairsVal s)) := by
  refine ⟨fun hodd => ?_, fun heven => ?_, fun hall heven => ?_⟩
  · simp only [hexToBytes]
    rw [if_pos (by omega)]
  · simp only [hexToBytes]
    rw [if_neg (by omega)]
  · have ht := jsTrim_of_hex s hall
    have hs := strip0x_of_hex s hall
    simp only [hexToBytes, ht, hs]
    rw [if_neg (by omega), hexPairsToBytes_agree s.length s le_rfl hall]

/-- Witness for `hexToBytes_amended`: odd length fails at `"abc"`, a
valid pair decodes at `"48"`. -/
theorem hexToBytes_amended_witness :
    hexToBytes ['a', 'b', 'c'] = Except.error "Hex length must be even" ∧
    hexToBytes ['4', '8'] = Except.ok [72] :=
  ⟨(hexToBytes_amended ['a', 'b', 'c']).1 (by decide),
   (hexToBytes_amended ['4', '8']).2.2 (by decide) (by decide)⟩

set_option maxRecDepth 4000 in
/-- C2 counterexample: `oversizeSpendParams` carries a 3,501-byte
witness script — beyond the 3,500-byte policy ceiling — with every other
input well-formed (a 64-hex-digit txid decoding to 32 bytes, a valid
testnet bech32 P2WSH recipient, `0 < fee < value`), yet it is not
rejected by `buildAndBroadcastSpend`: the whole PSBT stage succeeds and
a transaction is built. -/
theorem spend_oversize_script_builds :
    3500 < oversizeSpendParams.wscript.length ∧
    ∃ t, buildAndBroadcastSpend oversizeSpendParams = Except.ok t := by
  constructor
  · show 3500 < (List.replicate 3501 (0 : Nat)).length
    rw [List.length_replicate]
    omega
  · have hlen : (List.replicate 3501 (0 : Nat)).length = 3501 := List.length_replicate _ _
    have hw : witnessStackToScriptWitness [List.replicate 3501 (0 : Nat)]
        = Except.ok ([1] ++ ([253, 173, 13] ++ List.replicate 3501 0 ++ [])) := by
      simp only [witnessStackToScriptWitness, witnessItemsSerialize, List.length_cons,
        List.length_nil, Nat.zero_add, hlen]
      rfl
    have hwlen : ([1] ++ ([253, 173, 13] ++ List.replicate 3501 (0 : Nat) ++ [])).length
        = 3505 := by
      simp only [List.length_append, List.length_cons, List.length_nil,
        List.length_replicate]
    have hspk : toOutputScript (p2wshAddress [81]) = some ([0, 32] ++ sha256 [81]) := by
      decide
    have hslen : ([0, 32] ++ sha256 [81]).length = 34 := by decide
    have h1 : oversizeSpendParams.wscriptLen ≠ 0 := by decide
    have h2 : oversizeSpendParams.wscript ≠ [] := by decide
    have h3 : oversizeSpendParams.fundingTxid ≠ [] := by decide
    have h4 : oversizeSpendParams.fundingVout ≠ none := by decide
    have h5 : oversizeSpendParams.recipient ≠ [] := by decide
    have hf1 : (0 : Int) < oversizeSpendParams.sendFee := by decide
    have hf2 : oversizeSpendParams.sendFee < 10000 := by decide
    have htx : (nodeBufferFromHex oversizeSpendParams.fundingTxid).length = 32 := by
      decide
    have hvout : oversizeSpendParams.fundingVout.getD 0 ≤ 4294967295 := by decide
    have hsat : (10000 : Int) - oversizeSpendParams.sendFee ≤ 2100000000000000 := by
      decide
    have hfee : oversizeSpendParams.sendFee.toNat
        / txVirtualSize ([0, 32] ++ sha256 [81]).length
          ([1] ++ ([253, 173, 13] ++ List.replicate 3501 0 ++ [])).length < 5000 := by
      rw [hslen, hwlen]
      decide
    exact ⟨_, buildSpend_ok_of oversizeSpendParams 10000 ([0, 32] ++ sha256 [81])
      ([1] ++ ([253, 173, 13] ++ List.replicate 3501 0 ++ []))
      h1 h2 h3 h4 rfl h5 hf1 hf2 htx hvout hspk hsat hw hfee⟩

/-- C2 amended: the assembler validates witness script non-empty, funding
outpoint complete (txid, vout, value present), recipient present, and
`0 < fee < value`; any violation fails the operation before any
transaction object is built, with no partial transaction.  It does not
check the 3,500-byte policy ceiling (that check lives only in the
funding step). -/
theorem spend_validation_amended (p : SpendParams)
    (h : (p.wscriptLen = 0 ∨ p.wscript = []) ∨
         (p.fundingTxid = [] ∨ p.fundingVout = none ∨ p.fundingValue = none) ∨
         p.recipient = [] ∨ p.sendFee ≤ 0 ∨ p.fundingValue.getD 0 ≤ p.sendFee) :
    ∃ e, buildAndBroadcastSpend p = Except.error e := by
  unfold buildAndBroadcastSpend
  by_cases c1 : p.wscriptLen = 0 ∨ p.wscript = []
  · rw [if_pos c1]
    exact ⟨_, rfl⟩
  · rw [if_neg c1]
    by_cases c2 : p.fundingTxid = [] ∨ p.fundingVout = none ∨ p.fundingValue = none
    · rw [if_pos c2]
      exact ⟨_, rfl⟩
    · rw [if_neg c2]
      by_cases c3 : p.recipient = []
      · rw [if_pos c3]
        exact ⟨_, rfl⟩
      · rw [if_neg c3]
        have hfee : p.sendFee ≤ 0 ∨ p.fundingValue.getD 0 ≤ p.sendFee := by tauto
        rw [if_pos hfee]
        exact ⟨_, rfl⟩

/-- Witness for `spend_validation_amended`: a missing recipient is
rejected. -/
theorem spend_validation_amended_witness :
    ∃ e, buildAndBroadcastSpend
        { wscriptLen := 1, wscript := [81], fundingTxid := List.replicate 64 'a',
          fundingVout := some 0, fundingValue := some 1000, recipient := [],
          sendFee := 100 } = Except.error e :=
  spend_validation_amended _ (Or.inr (Or.inr (Or.inl rfl)))

/-- C7: the assembler rejects `fee = 0`, `fee = value` and `fee > value`
for every funding value, in all three cases failing with an error and no
transaction object; a transaction is built only when `0 < fee < value`. -/
theorem spend_fee_bounds (p : SpendParams) (v : Int) (hv : p.fundingValue = some v) :
    ((p.sendFee = 0 ∨ p.sendFee = v ∨ v < p.sendFee) →
      ∃ e, buildAndBroadcastSpend p = Except.error e) ∧
    ((∃ t, buildAndBroadcastSpend p = Except.ok t) → 0 < p.sendFee ∧ p.sendFee < v) := by
  constructor
  · intro hbad
    apply buildSpend_err_of_fee
    rw [hv]
    simp only [Option.getD_some]
    rcases hbad with hbad | hbad | hbad
    · left
      omega
    · right
      omega
    · right
      omega
  · rintro ⟨t, ht⟩
    have hfee := buildSpend_ok_fee p t ht
    rw [hv] at hfee
    simp only [Option.getD_some] at hfee
    push_neg at hfee
    exact ⟨by omega, by omega⟩

/-- Witness for `spend_fee_bounds`: `fee = 0` with funding value 1000 is
rejected. -/
theorem spend_fee_bounds_witness :
    ∃ e, buildAndBroadcastSpend
        { wscriptLen := 1, wscript := [81], fundingTxid := ['a'], fundingVout := some 0,
          fundingValue := some 1000, recipient := ['t'], sendFee := 0 }
      = Except.error e :=
  (spend_fee_bounds _ 1000 rfl).1 (Or.inl rfl)

/-- C1 counterexample: the zero-length payload does not round-trip.
`buildEnvelopeScript []` compiles the empty push to the single opcode
`OP_0`, so the parser finds an opcode — not a buffer — at index 2 and
returns `none` instead of the empty payload. -/
theorem bareEnvelope_empty_roundtrip_fails :
    parseEnvelopeScript (buildEnvelopeScript []) = none := by
  have hb : buildEnvelopeScript [] = [0, 99, 0, 104, 81] := rfl
  have hd : decompile [0, 99, 0, 104, 81]
      = some [Chunk.op 0, Chunk.op 99, Chunk.op 0, Chunk.op 104, Chunk.op 81] := by
    simpa using decompile_all_ops [0, 99, 0, 104, 81] (by decide)
  rw [hb]
  simp [parseEnvelopeScript, hd, OP_FALSE, OP_IF, OP_ENDIF, OP_TRUE]

/-- C1 amended: for every payload of length at most 520 whose push is
not minimally encoded as a single opcode (i.e. excluding the empty
payload and the one-byte payloads `0x01`–`0x10` and `0x81`), parsing the
compiled bare envelope recovers exactly the payload. -/
theorem bareEnvelope_roundtrip_amended (d : List Nat) (h520 : d.length ≤ 520)
    (hmin : asMinimalOP d = none) :
    parseEnvelopeScript (buildEnvelopeScript d) = some d := by
  have hd := decompile_buildEnvelopeScript d (by omega)
  have hc : chunkOfData d = Chunk.buf d := by simp [chunkOfData, hmin]
  rw [hc] at hd
  exact parse_of_decompiled_envelope _ d hd

/-- Witness for `bareEnvelope_roundtrip_amended` at the payload
`"hi"` = `[0x68, 0x69]` (the spec's worked example). -/
theorem bareEnvelope_roundtrip_amended_witness :
    asMinimalOP [104, 105] = none ∧
      parseEnvelopeScript (buildEnvelopeScript [104, 105]) = some [104, 105] :=
  ⟨by decide, bareEnvelope_roundtrip_amended [104, 105] (by decide) (by decide)⟩

/-- C10: whenever a script decompiles with an opcode (not a data push)
at index 2 — as minimal encoding produces for the empty payload and the
single bytes `0x01`–`0x10`, `0x81` — the parser returns `none`. -/
theorem parseEnvelope_minimal_opcode_absent (s : List Nat) (chunks : List Chunk) (k : Nat)
    (hdec : decompile s = some chunks) (h2 : chunks.get? 2 = some (Chunk.op k)) :
    parseEnvelopeScript s = none := by
  rw [parseEnvelopeScript_some_eq s chunks hdec]
  by_cases h5 : chunks.length < 5
  · rw [if_pos h5]
  · rw [if_neg h5]
    by_cases hcond : chunks.get? 0 = some (Chunk.op OP_FALSE)
        ∧ chunks.get? 1 = some (Chunk.op OP_IF)
        ∧ chunks.get? (chunks.length - 2) = some (Chunk.op OP_ENDIF)
        ∧ chunks.get? (chunks.length - 1) = some (Chunk.op OP_TRUE)
    · rw [if_pos hcond, h2]
    · rw [if_neg hcond]

/-- Witness for `parseEnvelope_minimal_opcode_absent` at the compiled
envelope of the single-byte payload `0x05` (script `00 63 55 68 51`). -/
theorem parseEnvelope_minimal_opcode_absent_witness :
    decompile [0, 99, 85, 104, 81]
        = some [Chunk.op 0, Chunk.op 99, Chunk.op 85, Chunk.op 104, Chunk.op 81] ∧
      parseEnvelopeScript [0, 99, 85, 104, 81] = none := by
  have hd : decompile [0, 99, 85, 104, 81]
      = some [Chunk.op 0, Chunk.op 99, Chunk.op 85, Chunk.op 104, Chunk.op 81] := by
    simpa using decompile_all_ops [0, 99, 85, 104, 81] (by decide)
  exact ⟨hd, parseEnvelope_minimal_opcode_absent _ _ 85 hd (by decide)⟩

/-- C5 counterexample: the script `00 63 53 68 51` decompiles to five
elements matching the claimed frame (`OP_FALSE`, `OP_IF`, …, `OP_ENDIF`,
`OP_TRUE`), yet the parser returns `none` — the element at index 2 is an
opcode, so the pattern alone does not characterize a present payload. -/
theorem parseEnvelope_opcode_payload_counterexample :
    (∃ chunks, decompile [0, 99, 83, 104, 81] = some chunks ∧
      5 ≤ chunks.length ∧
      chunks.get? 0 = some (Chunk.op OP_FALSE) ∧
      chunks.get? 1 = some (Chunk.op OP_IF) ∧
      chunks.get? (chunks.length - 2) = some (Chunk.op OP_ENDIF) ∧
      chunks.get? (chunks.length - 1) = some (Chunk.op OP_TRUE)) ∧
    parseEnvelopeScript [0, 99, 83, 104, 81] = none := by
  have hd : decompile [0, 99, 83, 104, 81]
      = some [Chunk.op 0, Chunk.op 99, Chunk.op 83, Chunk.op 104, Chunk.op 81] := by
    simpa using decompile_all_ops [0, 99, 83, 104, 81] (by decide)
  constructor
  · exact ⟨_, hd, by decide, by decide, by decide, by decide, by decide⟩
  · simp [parseEnvelopeScript, hd, OP_FALSE, OP_IF, OP_ENDIF, OP_TRUE]

/-- C5 amended: the parser never throws — it returns `none` whenever
decompilation fails — and returns a present payload exactly when the
decompiled sequence has at least 5 elements with `OP_FALSE` first,
`OP_IF` second, `OP_ENDIF` second-to-last, `OP_TRUE` last, and a data
push at index 2; the payload is that element at index 2. -/
theorem parseEnvelope_characterization_amended (s : List Nat) :
    (decompile s = none → parseEnvelopeScript s = none) ∧
    (∀ d : List Nat,
      parseEnvelopeScript s = some d ↔
        ∃ chunks, decompile s = some chunks ∧ 5 ≤ chunks.length ∧
          chunks.get? 0 = some (Chunk.op OP_FALSE) ∧
          chunks.get? 1 = some (Chunk.op OP_IF) ∧
          chunks.get? (chunks.length - 2) = some (Chunk.op OP_ENDIF) ∧
          chunks.get? (chunks.length - 1) = some (Chunk.op OP_TRUE) ∧
          chunks.get? 2 = some (Chunk.buf d)) := by
  constructor
  · intro h
    simp [parseEnvelopeScript, h]
  · intro d
    constructor
    · intro h
      cases hdec : decompile s with
      | none =>
        rw [parseEnvelopeScript_none_eq s hdec] at h
        simp at h
      | some chunks =>
        rw [parseEnvelopeScript_some_eq s chunks hdec] at h
        by_cases h5 : chunks.length < 5
        · rw [if_pos h5] at h
          simp at h
        · rw [if_neg h5] at h
          by_cases hcond : chunks.get? 0 = some (Chunk.op OP_FALSE)
              ∧ chunks.get? 1 = some (Chunk.op OP_IF)
              ∧ chunks.get? (chunks.length - 2) = some (Chunk.op OP_ENDIF)
              ∧ chunks.get? (chunks.length - 1) = some (Chunk.op OP_TRUE)
          · rw [if_pos hcond] at h
            cases hg : chunks.get? 2 with
            | none =>
              rw [hg] at h
              simp at h
            | some c =>
              rw [hg] at h
              cases c with
              | op k => simp at h
              | buf d2 =>
                simp only [Option.some.injEq] at h
                subst h
                exact ⟨chunks, rfl, by omega, hcond.1, hcond.2.1, hcond.2.2.1,
                  hcond.2.2.2, hg⟩
          · rw [if_neg hcond] at h
            simp at h
    · rintro ⟨chunks, hdec, h5, h0, h1, he, ht2, hb⟩
      rw [parseEnvelopeScript_some_eq s chunks hdec, if_neg (by omega),
        if_pos ⟨h0, h1, he, ht2⟩, hb]

/-- Witness for `parseEnvelope_characterization_amended`: the truncated
pushdata script `[0x4c]` fails to decompile and the parser returns
`none`. -/
theorem parseEnvelope_characterization_amended_witness :
    decompile [76] = none ∧ parseEnvelopeScript [76] = none := by
  have hd : decompile [76] = none := by
    rw [decompile]
    simp [pushHeader]
  exact ⟨hd, (parseEnvelope_characterization_amended [76]).1 hd⟩

/-- The bytes `compile` emits for the data pushes coming from the
chunking loop. -/
theorem flatMap_map_buf (l : List (List Nat)) :
    ((l.map Chunk.buf).flatMap compileChunk) = l.flatMap minimalPush := by
  induction l with
  | nil => rfl
  | cons a t ih => simp [List.map_cons, List.flatMap_cons, ih, compileChunk]

/-- C8: the compiled inscription envelope is exactly `OP_FALSE` `OP_IF`,
the push of `"ord"` (`03 6f 72 64`), the push of the version byte `0x01`
(minimally encoded as the single opcode `OP_1` = `0x51`), the push of the
content-type bytes, the push of the delimiter byte `0x00` (`01 00`), the
payload-chunk pushes in order, and `OP_ENDIF` — with no trailing
`OP_TRUE`. -/
theorem inscription_script_layout (d ct : List Nat) :
    buildInscriptionScript d ct =
      [0, 99, 3, 111, 114, 100, 81] ++ minimalPush ct ++ [1, 0]
        ++ (chunkData d).flatMap minimalPush ++ [104] := by
  simp only [buildInscriptionScript, compile, List.flatMap_append, List.flatMap_cons,
    List.flatMap_nil, compileChunk, flatMap_map_buf]
  have h1 : minimalPush ordTag = [3, 111, 114, 100] := rfl
  have h2 : minimalPush [1] = [81] := rfl
  have h3 : minimalPush [0] = [1, 0] := rfl
  rw [h1, h2, h3]
  simp [OP_FALSE, OP_IF, OP_ENDIF, List.append_assoc]

end P2wshMvp
